import Mathlib

/-!
Verification of the card-game core of this repository
(`simple_card_game/card.py` and `simple_card_game/deck.py`).

The Python code is shallowly embedded:
  * a method that can raise returns `Except PyError ...`;
  * randomness (`random.shuffle`, `random.randint`, `random.random`,
    `random.randrange`) is passed in explicitly as a stream of choices;
  * Python list objects and their aliasing are modelled, where a claim is
    about mutation, by a small heap of lists (`Heap`) indexed by `Nat` references.
-/

/-- Python exceptions relevant to the embedded code (`ValueError msg`). -/
inductive PyError where
  | valueError (msg : String)
deriving DecidableEq, Repr

/-- `SUITS` from `card.py`. -/
def SUITS : List String := ["Hearts", "Diamonds", "Clubs", "Spades"]

/-- `RANKS` from `card.py`. -/
def RANKS : List String :=
  ["2", "3", "4", "5", "6", "7", "8", "9", "10", "Jack", "Queen", "King", "Ace"]

/-- `StandardCard`: suit, rank, value, plus the `name` field set by
`Card.__init__` to `suit + rank + str(value)`. -/
structure StandardCard where
  name : String
  suit : String
  rank : String
  value : Int
deriving DecidableEq, Repr

/-- `StandardCard.__init__(suit, rank, value)`. -/
def standardCard (suit rank : String) (value : Int) : StandardCard :=
  { name := suit ++ rank ++ toString value, suit := suit, rank := rank, value := value }

/-- `StandardCardFactory.create_card(suit, rank, value)`: the method body is a
single constructor call with no validation and no `raise`, so in the
exception monad it always returns `.ok`. -/
def create_card (suit rank : String) (value : Int) : Except PyError StandardCard :=
  .ok (standardCard suit rank value)

/-- Inner loop of `StandardDeck.create_deck`: `for value, rank in
enumerate(ranks): self.deck.append(self.factory.create_card(suit, rank, value + 1))`. -/
def create_deck_inner (suit : String) :
    List (Nat × String) → List StandardCard → Except PyError (List StandardCard)
  | [], d => .ok d
  | vr :: rest, d =>
    match create_card suit vr.2 ((vr.1 : Int) + 1) with
    | .error e => .error e
    | .ok c => create_deck_inner suit rest (d ++ [c])

/-- Outer loop of `StandardDeck.create_deck`: `for suit in suits: ...`. -/
def create_deck_outer (ranks : List String) :
    List String → List StandardCard → Except PyError (List StandardCard)
  | [], d => .ok d
  | s :: ss, d =>
    match create_deck_inner s ranks.enum d with
    | .error e => .error e
    | .ok d2 => create_deck_outer ranks ss d2

/-- `StandardDeck.create_deck(suits, ranks)` acting on the current `self.deck`
contents (the method appends to `self.deck` and returns `self`). -/
def create_deck (suits ranks : List String) (deck : List StandardCard) :
    Except PyError (List StandardCard) :=
  create_deck_outer ranks suits deck

/-- The list of cards the nested loops of `create_deck` construct, in order:
suits in the outer loop, `enumerate(ranks)` in the inner loop, value = index + 1. -/
def deckCards (suits ranks : List String) : List StandardCard :=
  suits.flatMap (fun s => ranks.enum.map (fun vr => standardCard s vr.2 ((vr.1 : Int) + 1)))

theorem create_deck_inner_eq (suit : String) (pairs : List (Nat × String))
    (d : List StandardCard) :
    create_deck_inner suit pairs d
      = .ok (d ++ pairs.map (fun vr => standardCard suit vr.2 ((vr.1 : Int) + 1))) := by
  induction pairs generalizing d with
  | nil => simp [create_deck_inner]
  | cons p ps ih => simp [create_deck_inner, create_card, ih]

theorem create_deck_eq (suits ranks : List String) (deck : List StandardCard) :
    create_deck suits ranks deck = .ok (deck ++ deckCards suits ranks) := by
  unfold create_deck
  induction suits generalizing deck with
  | nil => simp [create_deck_outer, deckCards]
  | cons s ss ih =>
    simp [create_deck_outer, create_deck_inner_eq, ih, deckCards, List.flatMap_cons]

/-- Python's simultaneous assignment `l[i], l[j] = l[j], l[i]`. Out-of-range
indices (which would raise `IndexError`; unreachable in the shuffle code)
leave the list unchanged. -/
def listSwap {α : Type} (l : List α) (i j : Nat) : List α :=
  match l[i]?, l[j]? with
  | some a, some b => (l.set i b).set j a
  | some _, none => l
  | none, _ => l

theorem listSwap_length {α : Type} (l : List α) (i j : Nat) :
    (listSwap l i j).length = l.length := by
  unfold listSwap
  cases h1 : l[i]? <;> cases h2 : l[j]? <;> simp

theorem cons_set_perm {α : Type} (x b : α) :
    ∀ (t : List α) (m : Nat), t[m]? = some b → List.Perm (b :: t.set m x) (x :: t)
  | c :: t', 0, h => by
    simp only [List.getElem?_cons_zero, Option.some.injEq] at h
    subst h
    simp only [List.set_cons_zero]
    exact List.Perm.swap x c t'
  | c :: t', m + 1, h => by
    simp only [List.getElem?_cons_succ] at h
    have ih := cons_set_perm x b t' m h
    simp only [List.set_cons_succ]
    exact ((List.Perm.swap c b _).trans (List.Perm.cons c ih)).trans (List.Perm.swap x c t')

theorem listSwap_perm {α : Type} : ∀ (l : List α) (i j : Nat), List.Perm (listSwap l i j) l
  | [], i, j => by simp [listSwap]
  | x :: t, 0, 0 => by simp [listSwap]
  | x :: t, 0, m + 1 => by
    cases h : t[m]? with
    | none => simp [listSwap, h]
    | some b =>
      simp only [listSwap, List.getElem?_cons_zero, List.getElem?_cons_succ, h,
        List.set_cons_zero, List.set_cons_succ]
      exact cons_set_perm x b t m h
  | x :: t, m + 1, 0 => by
    cases h : t[m]? with
    | none => simp [listSwap, h]
    | some a =>
      simp only [listSwap, List.getElem?_cons_zero, List.getElem?_cons_succ, h,
        List.set_cons_zero, List.set_cons_succ]
      exact cons_set_perm x a t m h
  | x :: t, m + 1, k + 1 => by
    cases h1 : t[m]? with
    | none => simp [listSwap, h1]
    | some a =>
      cases h2 : t[k]? with
      | none => simp [listSwap, h1, h2]
      | some b =>
        have ih := listSwap_perm t m k
        simp only [listSwap, List.getElem?_cons_succ, h1, h2, List.set_cons_succ] at ih ⊢
        exact List.Perm.cons x ih

/-- Model of `random.shuffle(l)`: the RNG picks some permutation `perm` of the
index range `0 .. len(l) - 1` and the list is reordered accordingly. A `perm`
that is not a permutation of the index range cannot be produced by the real
RNG; it leaves the list unchanged so that the model is total. -/
def applyPerm {α : Type} (perm : List Nat) (l : List α) : List α :=
  if perm.isPerm (List.range l.length) then perm.filterMap (fun i => l[i]?) else l

/-- `RandomShuffle.shuffle(cards)`: `shuffled_cards = cards.copy();
random.shuffle(shuffled_cards); return shuffled_cards`. -/
def randomShuffle {α : Type} (perm : List Nat) (cards : List α) : List α :=
  applyPerm perm cards

theorem filterMap_getElem_range {α : Type} (l : List α) :
    (List.range l.length).filterMap (fun i => l[i]?) = l := by
  induction l with
  | nil => rfl
  | cons x t ih =>
    rw [List.length_cons, List.range_succ_eq_map, List.filterMap_cons,
      List.filterMap_map]
    simp only [List.getElem?_cons_zero, Function.comp_def, Nat.succ_eq_add_one,
      List.getElem?_cons_succ]
    rw [ih]

theorem applyPerm_perm {α : Type} (perm : List Nat) (l : List α) :
    List.Perm (applyPerm perm l) l := by
  unfold applyPerm
  by_cases h : perm.isPerm (List.range l.length)
  · rw [if_pos h]
    have hp : List.Perm perm (List.range l.length) := List.isPerm_iff.mp h
    have := hp.filterMap (fun i => l[i]?)
    rwa [filterMap_getElem_range] at this
  · rw [if_neg h]

/-- Loop of `RiffleShuffle.shuffle`: `while left or right: ...`. The coin
stream `coins` models the successive values of `random.random() < 0.5`
(consumed only when the corresponding `random.random()` call is reached);
`k` is the index of the next coin. The `while` loop does not terminate on the
(probability-zero) coin stream that always declines both halves, so the model
carries `fuel`, one unit per loop iteration, and returns `none` when the fuel
is exhausted before the loop exits. -/
def riffleLoop {α : Type} (coins : Nat → Bool) :
    Nat → Nat → List α → List α → List α → Option (List α)
  | _, 0, [], [], mixed => some mixed
  | _, 0, _ :: _, _, _ => none
  | _, 0, [], _ :: _, _ => none
  | _, _ + 1, [], [], mixed => some mixed
  | k, fuel + 1, a :: ltl, [], mixed => riffleLoop coins k fuel ltl [] (mixed ++ [a])
  | k, fuel + 1, [], b :: rtl, mixed => riffleLoop coins k fuel [] rtl (mixed ++ [b])
  | k, fuel + 1, a :: ltl, b :: rtl, mixed =>
    if coins k then
      if ltl.isEmpty then riffleLoop coins (k + 1) fuel ltl rtl (mixed ++ [a, b])
      else if coins (k + 1) then riffleLoop coins (k + 2) fuel ltl rtl (mixed ++ [a, b])
      else riffleLoop coins (k + 2) fuel ltl (b :: rtl) (mixed ++ [a])
    else
      if coins (k + 1) then riffleLoop coins (k + 2) fuel (a :: ltl) rtl (mixed ++ [b])
      else riffleLoop coins (k + 2) fuel (a :: ltl) (b :: rtl) mixed

/-- `RiffleShuffle.shuffle(cards)`: split at the midpoint, then interleave. -/
def riffleShuffle {α : Type} (coins : Nat → Bool) (fuel : Nat) (cards : List α) :
    Option (List α) :=
  riffleLoop coins 0 fuel (cards.take (cards.length / 2)) (cards.drop (cards.length / 2)) []

theorem riffleLoop_perm {α : Type} (coins : Nat → Bool) :
    ∀ (fuel k : Nat) (left right mixed m : List α),
      riffleLoop coins k fuel left right mixed = some m →
      List.Perm m (mixed ++ (left ++ right)) := by
  intro fuel
  induction fuel with
  | zero =>
    intro k left right mixed m h
    match left, right with
    | [], [] => simp [riffleLoop] at h; subst h; simp
    | _ :: _, _ => simp [riffleLoop] at h
    | [], _ :: _ => simp [riffleLoop] at h
  | succ fuel ih =>
    intro k left right mixed m h
    match left, right with
    | [], [] =>
      simp [riffleLoop] at h
      subst h
      simp
    | a :: ltl, [] =>
      have := ih k ltl [] (mixed ++ [a]) m h
      simpa using this
    | [], b :: rtl =>
      have := ih k [] rtl (mixed ++ [b]) m h
      simpa using this
    | a :: ltl, b :: rtl =>
      simp only [riffleLoop] at h
      by_cases hc : coins k
      · rw [if_pos hc] at h
        by_cases hemp : ltl.isEmpty
        · rw [if_pos hemp] at h
          have h2 := ih (k + 1) ltl rtl (mixed ++ [a, b]) m h
          rw [List.isEmpty_iff] at hemp
          subst hemp
          simpa using h2
        · rw [if_neg hemp] at h
          by_cases hc2 : coins (k + 1)
          · rw [if_pos hc2] at h
            have h2 := ih (k + 2) ltl rtl (mixed ++ [a, b]) m h
            refine h2.trans ?_
            simp only [List.cons_append, List.append_assoc, List.nil_append]
            exact List.Perm.append_left mixed (List.Perm.cons a List.perm_middle.symm)
          · rw [if_neg hc2] at h
            have h2 := ih (k + 2) ltl (b :: rtl) (mixed ++ [a]) m h
            refine h2.trans ?_
            simp [List.append_assoc]
      · rw [if_neg hc] at h
        by_cases hc2 : coins (k + 1)
        · rw [if_pos hc2] at h
          have h2 := ih (k + 2) (a :: ltl) rtl (mixed ++ [b]) m h
          refine h2.trans ?_
          simp only [List.cons_append, List.append_assoc, List.nil_append]
          exact List.Perm.append_left mixed (@List.perm_middle α b (a :: ltl) rtl).symm
        · rw [if_neg hc2] at h
          exact ih (k + 2) (a :: ltl) (b :: rtl) mixed m h

theorem riffleShuffle_perm {α : Type} (coins : Nat → Bool) (fuel : Nat)
    (cards m : List α) (h : riffleShuffle coins fuel cards = some m) :
    List.Perm m cards := by
  have := riffleLoop_perm coins fuel 0
    (cards.take (cards.length / 2)) (cards.drop (cards.length / 2)) [] m h
  simpa [List.take_append_drop] using this

/-- Loop of `FisherYatesShuffle.shuffle`: `for i in range(len(result) - 1, 0, -1):
j = random.randint(0, i); result[i], result[j] = result[j], result[i]`. The
stream `rand` models the RNG: the call `random.randint(0, i)` returns
`rand i % (i + 1)`, which ranges over exactly the values `0 .. i`. -/
def fyAux {α : Type} (rand : Nat → Nat) : Nat → List α → List α
  | 0, l => l
  | i + 1, l => fyAux rand i (listSwap l (i + 1) (rand (i + 1) % (i + 1 + 1)))

/-- `FisherYatesShuffle.shuffle(cards)`: copy, then swap downwards from the
last index, stopping after index 1. -/
def fisherYatesShuffle {α : Type} (rand : Nat → Nat) (cards : List α) : List α :=
  fyAux rand (cards.length - 1) cards

/-- Modelled from the spec: the reference Fisher-Yates algorithm of section
4.2, which iterates the index `i` from the last position down to 0 inclusive
and swaps position `i` with a uniformly chosen position `0 .. i`. It is the
comparison point for the claim that stopping at index 1 is extensionally
equal; at `i = 0` the chosen index `rand 0 % 1` is necessarily 0. -/
def fyRefAux {α : Type} (rand : Nat → Nat) : Nat → List α → List α
  | 0, l => listSwap l 0 (rand 0 % 1)
  | i + 1, l => fyRefAux rand i (listSwap l (i + 1) (rand (i + 1) % (i + 1 + 1)))

/-- Modelled from the spec: reference Fisher-Yates over the whole index range
(no iteration on the empty sequence). -/
def fisherYatesRef {α : Type} (rand : Nat → Nat) (cards : List α) : List α :=
  if cards.isEmpty then cards else fyRefAux rand (cards.length - 1) cards

theorem listSwap_zero_zero {α : Type} (l : List α) : listSwap l 0 0 = l := by
  cases l with
  | nil => rfl
  | cons x t => simp [listSwap]

theorem fyAux_eq_fyRefAux {α : Type} (rand : Nat → Nat) :
    ∀ (i : Nat) (l : List α), fyAux rand i l = fyRefAux rand i l
  | 0, l => by
    simp [fyAux, fyRefAux, Nat.mod_one, listSwap_zero_zero]
  | i + 1, l => by
    simp only [fyAux, fyRefAux]
    exact fyAux_eq_fyRefAux rand i _

theorem fyAux_perm {α : Type} (rand : Nat → Nat) :
    ∀ (i : Nat) (l : List α), List.Perm (fyAux rand i l) l
  | 0, l => List.Perm.refl l
  | i + 1, l =>
    (fyAux_perm rand i _).trans (listSwap_perm l (i + 1) (rand (i + 1) % (i + 1 + 1)))

theorem fisherYatesShuffle_perm {α : Type} (rand : Nat → Nat) (cards : List α) :
    List.Perm (fisherYatesShuffle rand cards) cards :=
  fyAux_perm rand (cards.length - 1) cards

/-- Loop of `WeakShuffle.shuffle`: `for _ in range(self.swaps): i, j =
random.randrange(len(result)), random.randrange(len(result)); result[i],
result[j] = result[j], result[i]`. The stream `rand` models the RNG
(`random.randrange(n)` returns `rand k % n` for the next index `k` when
`n > 0`); `random.randrange(0)` raises `ValueError`. -/
def weakShuffleAux {α : Type} (rand : Nat → Nat) : Nat → Nat → List α → Except PyError (List α)
  | 0, _, l => .ok l
  | s + 1, k, l =>
    if l.length = 0 then .error (.valueError "empty range for randrange()")
    else weakShuffleAux rand s (k + 2)
      (listSwap l (rand k % l.length) (rand (k + 1) % l.length))

/-- `WeakShuffle(swaps).shuffle(cards)`: copy, then `swaps` random transpositions. -/
def weakShuffle {α : Type} (swaps : Nat) (rand : Nat → Nat) (cards : List α) :
    Except PyError (List α) :=
  weakShuffleAux rand swaps 0 cards

/-- The pure value computed by the `WeakShuffle` loop when no iteration hits
the empty-list error: the same `swaps` transpositions, without the
exception-monad wrapper. -/
def weakSwaps {α : Type} (rand : Nat → Nat) : Nat → Nat → List α → List α
  | 0, _, l => l
  | s + 1, k, l => weakSwaps rand s (k + 2) (listSwap l (rand k % l.length) (rand (k + 1) % l.length))

theorem weakSwaps_perm {α : Type} (rand : Nat → Nat) :
    ∀ (s k : Nat) (l : List α), List.Perm (weakSwaps rand s k l) l
  | 0, _, l => List.Perm.refl l
  | s + 1, k, l =>
    (weakSwaps_perm rand s (k + 2) _).trans
      (listSwap_perm l (rand k % l.length) (rand (k + 1) % l.length))

theorem weakShuffleAux_ok {α : Type} (rand : Nat → Nat) :
    ∀ (s k : Nat) (l : List α), l ≠ [] →
      weakShuffleAux rand s k l = .ok (weakSwaps rand s k l)
  | 0, _, l, _ => rfl
  | s + 1, k, l, hl => by
    have hlen : l.length ≠ 0 := fun h => hl (List.length_eq_zero.mp h)
    have hlen2 : (listSwap l (rand k % l.length) (rand (k + 1) % l.length)) ≠ [] := by
      intro h
      have := listSwap_length l (rand k % l.length) (rand (k + 1) % l.length)
      rw [h] at this
      exact hlen this.symm
    simp only [weakShuffleAux, weakSwaps, if_neg hlen]
    exact weakShuffleAux_ok rand s (k + 2) _ hlen2

theorem weakShuffle_ok {α : Type} (swaps : Nat) (rand : Nat → Nat) (cards : List α)
    (h : cards ≠ []) :
    weakShuffle swaps rand cards = .ok (weakSwaps rand swaps 0 cards) :=
  weakShuffleAux_ok rand swaps 0 cards h

/-- Minimal heap of Python list objects: cell `r` holds the list object that
the reference (index) `r` points to. Allocation appends a fresh cell. -/
abbrev Heap (α : Type) := List (List α)

/-- Allocate a fresh list object, returning the new heap and its reference. -/
def halloc {α : Type} (h : Heap α) (l : List α) : Heap α × Nat := (h ++ [l], h.length)

/-- Read the list object behind a reference. -/
def hread {α : Type} (h : Heap α) (r : Nat) : List α := h[r]?.getD []

/-- Overwrite the list object behind a reference (an in-place mutation). -/
def hwrite {α : Type} (h : Heap α) (r : Nat) (l : List α) : Heap α := h.set r l

theorem hread_append {α : Type} (h : Heap α) (l : List α) (r : Nat) (hr : r < h.length) :
    hread (h ++ [l]) r = hread h r := by
  simp [hread, List.getElem?_append_left hr]

theorem hread_halloc {α : Type} (h : Heap α) (l : List α) (r : Nat) (hr : r < h.length) :
    hread (halloc h l).1 r = hread h r :=
  hread_append h l r hr

theorem hwrite_length {α : Type} (h : Heap α) (r : Nat) (l : List α) :
    (hwrite h r l).length = h.length := by
  simp [hwrite]

theorem hread_hwrite_ne {α : Type} (h : Heap α) (r s : Nat) (l : List α) (hne : r ≠ s) :
    hread (hwrite h r l) s = hread h s := by
  simp [hread, hwrite, List.getElem?_set_ne hne]

/-- `RandomShuffle.shuffle(self, cards)` on the heap: `shuffled_cards =
cards.copy()` allocates a fresh object; `random.shuffle(shuffled_cards)`
mutates only that fresh object; the fresh reference is returned. -/
def randomShuffleH {α : Type} (perm : List Nat) (h : Heap α) (cards : Nat) : Heap α × Nat :=
  let p := halloc h (hread h cards)
  (hwrite p.1 p.2 (applyPerm perm (hread p.1 p.2)), p.2)

/-- The `FisherYatesShuffle` loop on the heap: each swap is an in-place
element assignment to the object behind `res`. -/
def fyLoopH {α : Type} (rand : Nat → Nat) (res : Nat) : Nat → Heap α → Heap α
  | 0, h => h
  | i + 1, h =>
    fyLoopH rand res i (hwrite h res (listSwap (hread h res) (i + 1) (rand (i + 1) % (i + 1 + 1))))

/-- `FisherYatesShuffle.shuffle(self, cards)` on the heap: `result =
cards.copy()`, then the swap loop mutates only the fresh object. -/
def fisherYatesShuffleH {α : Type} (rand : Nat → Nat) (h : Heap α) (cards : Nat) :
    Heap α × Nat :=
  let p := halloc h (hread h cards)
  (fyLoopH rand p.2 ((hread p.1 p.2).length - 1) p.1, p.2)

/-- The `WeakShuffle` loop on the heap: `swaps` in-place transpositions of the
object behind `res`; `random.randrange(0)` raises `ValueError`. -/
def weakLoopH {α : Type} (rand : Nat → Nat) (res : Nat) : Nat → Nat → Heap α → Except PyError (Heap α)
  | 0, _, h => .ok h
  | s + 1, k, h =>
    if (hread h res).length = 0 then .error (.valueError "empty range for randrange()")
    else weakLoopH rand res s (k + 2)
      (hwrite h res (listSwap (hread h res)
        (rand k % (hread h res).length) (rand (k + 1) % (hread h res).length)))

/-- `WeakShuffle(swaps).shuffle(self, cards)` on the heap. -/
def weakShuffleH {α : Type} (swaps : Nat) (rand : Nat → Nat) (h : Heap α) (cards : Nat) :
    Except PyError (Heap α × Nat) :=
  let p := halloc h (hread h cards)
  (weakLoopH rand p.2 swaps 0 p.1).map (fun h2 => (h2, p.2))

/-- `RiffleShuffle.shuffle(self, cards)` on the heap: the slices
`cards[: n // 2]` and `cards[n // 2 :]` and the accumulator `mixed = []` are
three fresh objects; the loop pops from the slices and appends to `mixed`, so
after the loop the slices are empty and `mixed` holds the interleaving. -/
def riffleShuffleH {α : Type} (coins : Nat → Bool) (fuel : Nat) (h : Heap α) (cards : Nat) :
    Option (Heap α × Nat) :=
  let l := hread h cards
  let p1 := halloc h (l.take (l.length / 2))
  let p2 := halloc p1.1 (l.drop (l.length / 2))
  let p3 := halloc p2.1 []
  match riffleLoop coins 0 fuel (hread p3.1 p1.2) (hread p3.1 p2.2) (hread p3.1 p3.2) with
  | none => none
  | some mixed =>
    some (hwrite (hwrite (hwrite p3.1 p1.2 []) p2.2 []) p3.2 mixed, p3.2)

/-- `StandardDeck.shuffle_deck` with the default strategy (`RandomShuffle`,
installed by `__init__` when no strategy is given): returns
`self.shuffle_strategy.shuffle(self.deck)`, a fresh object. -/
def shuffle_deckH {α : Type} (perm : List Nat) (h : Heap α) (deck : Nat) : Heap α × Nat :=
  randomShuffleH perm h deck

/-- `StandardDeck.get_game_deck`: returns `self.shuffle_deck()`. -/
def get_game_deckH {α : Type} (perm : List Nat) (h : Heap α) (deck : Nat) : Heap α × Nat :=
  shuffle_deckH perm h deck

/-- `StandardDeck.get_current_card`: `game_deck = self.get_game_deck()`, raise
`ValueError` if it is empty, else `return game_deck.pop(0)` — the pop mutates
the object behind the `game_deck` reference. -/
def get_current_cardH {α : Type} (perm : List Nat) (h : Heap α) (deck : Nat) :
    Except PyError (α × Heap α) :=
  let p := get_game_deckH perm h deck
  match hread p.1 p.2 with
  | [] => .error (.valueError "Deck is empty, please create a new deck.")
  | c :: rest => .ok (c, hwrite p.1 p.2 rest)

theorem randomShuffleH_frame {α : Type} (perm : List Nat) (h : Heap α) (cards : Nat)
    (hc : cards < h.length) :
    hread (randomShuffleH perm h cards).1 cards = hread h cards
    ∧ (randomShuffleH perm h cards).2 ≠ cards := by
  unfold randomShuffleH halloc
  refine ⟨?_, by simpa using Nat.ne_of_gt hc⟩
  rw [hread_hwrite_ne _ _ _ _ (Nat.ne_of_gt hc)]
  exact hread_halloc h _ cards hc

theorem fyLoopH_frame {α : Type} (rand : Nat → Nat) (res r : Nat) (hne : res ≠ r) :
    ∀ (i : Nat) (h : Heap α), hread (fyLoopH rand res i h) r = hread h r
  | 0, h => rfl
  | i + 1, h => by
    rw [fyLoopH, fyLoopH_frame rand res r hne i _, hread_hwrite_ne _ _ _ _ hne]

theorem fisherYatesShuffleH_frame {α : Type} (rand : Nat → Nat) (h : Heap α) (cards : Nat)
    (hc : cards < h.length) :
    hread (fisherYatesShuffleH rand h cards).1 cards = hread h cards
    ∧ (fisherYatesShuffleH rand h cards).2 ≠ cards := by
  unfold fisherYatesShuffleH halloc
  refine ⟨?_, by simpa using Nat.ne_of_gt hc⟩
  rw [fyLoopH_frame rand _ cards (Nat.ne_of_gt hc)]
  exact hread_halloc h _ cards hc

theorem weakLoopH_frame {α : Type} (rand : Nat → Nat) (res r : Nat) (hne : res ≠ r) :
    ∀ (s k : Nat) (h h2 : Heap α), weakLoopH rand res s k h = .ok h2 →
      hread h2 r = hread h r
  | 0, _, h, h2, heq => by
    simp only [weakLoopH] at heq
    cases heq
    rfl
  | s + 1, k, h, h2, heq => by
    simp only [weakLoopH] at heq
    by_cases hz : (hread h res).length = 0
    · rw [if_pos hz] at heq
      cases heq
    · rw [if_neg hz] at heq
      rw [weakLoopH_frame rand res r hne s (k + 2) _ h2 heq, hread_hwrite_ne _ _ _ _ hne]

theorem weakShuffleH_frame {α : Type} (swaps : Nat) (rand : Nat → Nat) (h : Heap α)
    (cards : Nat) (hc : cards < h.length) (h2 : Heap α) (r : Nat)
    (hok : weakShuffleH swaps rand h cards = .ok (h2, r)) :
    hread h2 cards = hread h cards ∧ r ≠ cards := by
  unfold weakShuffleH halloc at hok
  simp only at hok
  cases hloop : weakLoopH rand (h.length) swaps 0 (h ++ [hread h cards]) with
  | error e => rw [hloop] at hok; cases hok
  | ok h3 =>
    rw [hloop] at hok
    simp only [Except.map] at hok
    cases hok
    constructor
    · rw [weakLoopH_frame rand h.length cards (Nat.ne_of_gt hc) swaps 0 _ _ hloop]
      exact hread_halloc h _ cards hc
    · exact Nat.ne_of_gt hc

theorem riffleShuffleH_frame {α : Type} (coins : Nat → Bool) (fuel : Nat) (h : Heap α)
    (cards : Nat) (hc : cards < h.length) (h2 : Heap α) (r : Nat)
    (hok : riffleShuffleH coins fuel h cards = some (h2, r)) :
    hread h2 cards = hread h cards ∧ r ≠ cards := by
  unfold riffleShuffleH halloc at hok
  simp only at hok
  have hc1 : cards < (h ++ [(hread h cards).take ((hread h cards).length / 2)]).length := by
    simp
    omega
  have hc2 : cards <
      ((h ++ [(hread h cards).take ((hread h cards).length / 2)])
        ++ [(hread h cards).drop ((hread h cards).length / 2)]).length := by
    simp
    omega
  cases hloop : riffleLoop coins 0 fuel
      (hread (((h ++ [(hread h cards).take ((hread h cards).length / 2)])
        ++ [(hread h cards).drop ((hread h cards).length / 2)]) ++ [[]]) h.length)
      (hread (((h ++ [(hread h cards).take ((hread h cards).length / 2)])
        ++ [(hread h cards).drop ((hread h cards).length / 2)]) ++ [[]]) (h.length + 1))
      (hread (((h ++ [(hread h cards).take ((hread h cards).length / 2)])
        ++ [(hread h cards).drop ((hread h cards).length / 2)]) ++ [[]]) (h.length + 2)) with
  | none =>
    rw [show (h ++ [(hread h cards).take ((hread h cards).length / 2)]).length
        = h.length + 1 by simp,
      show ((h ++ [(hread h cards).take ((hread h cards).length / 2)])
        ++ [(hread h cards).drop ((hread h cards).length / 2)]).length = h.length + 2 by simp]
        at hok
    rw [hloop] at hok
    cases hok
  | some mixed =>
    rw [show (h ++ [(hread h cards).take ((hread h cards).length / 2)]).length
        = h.length + 1 by simp,
      show ((h ++ [(hread h cards).take ((hread h cards).length / 2)])
        ++ [(hread h cards).drop ((hread h cards).length / 2)]).length = h.length + 2 by simp]
        at hok
    rw [hloop] at hok
    cases hok
    refine ⟨?_, by omega⟩
    rw [hread_hwrite_ne _ _ _ _ (by omega), hread_hwrite_ne _ _ _ _ (by omega),
      hread_hwrite_ne _ _ _ _ (by omega)]
    rw [hread_append _ _ cards hc2, hread_append _ _ cards hc1, hread_append _ _ cards hc]

/-- The card {Hearts, 2, 1}, the single card of the deck `create_deck(["Hearts"], ["2"])`. -/
def heartsTwo : StandardCard := standardCard "Hearts" "2" 1

/-- Claim C1: the claim fails on the code. `get_current_card` re-shuffles
`self.deck` into a fresh list object and pops the front of that copy, so
nothing is ever removed from `self.deck`. On a deck created with one card
(heap cell 0), the first draw succeeds and leaves cell 0 untouched, and the
second draw succeeds again with the same card instead of failing with
EmptyDeck. -/
theorem draw_twice_from_singleton_deck_succeeds :
    create_deck ["Hearts"] ["2"] [] = .ok [heartsTwo]
    ∧ get_current_cardH [0] [[heartsTwo]] 0 = .ok (heartsTwo, [[heartsTwo], []])
    ∧ get_current_cardH [0] [[heartsTwo], []] 0 = .ok (heartsTwo, [[heartsTwo], [], []]) :=
  ⟨rfl, rfl, rfl⟩

/-- Claim C2: the claim fails on the code. A successful `get_current_card`
leaves the deck's size unchanged — the pop hits the shuffled copy, not
`self.deck` (heap cell 0) — so the size does not strictly decrease. -/
theorem draw_does_not_shrink_deck :
    get_current_cardH [0] [[heartsTwo]] 0 = .ok (heartsTwo, [[heartsTwo], []])
    ∧ (hread [[heartsTwo], []] 0).length = (hread [[heartsTwo]] 0).length :=
  ⟨rfl, rfl⟩

/-- Claim C3 counterexample: WeakShuffle with the default 10 swaps applied to
the empty sequence raises `ValueError` (from `random.randrange(0)`) instead
of returning a permutation of the input. -/
theorem weakShuffle_empty_not_perm :
    weakShuffle 10 (fun _ => 0) ([] : List Nat)
      = .error (.valueError "empty range for randrange()") := rfl

/-- Claim C3 amended: every shuffle strategy returns a permutation of its
input (same length and multiset) — RandomShuffle and FisherYatesShuffle on
every sequence, RiffleShuffle on every sequence on which its loop
terminates, and WeakShuffle on every non-empty sequence (on the empty
sequence it raises instead, see C9). -/
theorem shuffle_strategies_permute (α : Type) (perm : List Nat) (coins : Nat → Bool)
    (fuel : Nat) (rand : Nat → Nat) (swaps : Nat) (l : List α) :
    List.Perm (randomShuffle perm l) l
    ∧ (∀ m, riffleShuffle coins fuel l = some m → List.Perm m l)
    ∧ List.Perm (fisherYatesShuffle rand l) l
    ∧ (l ≠ [] → weakShuffle swaps rand l = .ok (weakSwaps rand swaps 0 l)
        ∧ List.Perm (weakSwaps rand swaps 0 l) l) :=
  ⟨applyPerm_perm perm l, fun m hm => riffleShuffle_perm coins fuel l m hm,
    fisherYatesShuffle_perm rand l,
    fun hl => ⟨weakShuffle_ok swaps rand l hl, weakSwaps_perm rand swaps 0 l⟩⟩

theorem shuffle_strategies_permute_witness :
    List.Perm (randomShuffle [1, 0] [1, 2, 3]) [1, 2, 3]
    ∧ List.Perm [1, 2, 3] [1, 2, 3]
    ∧ List.Perm (fisherYatesShuffle (fun _ => 0) [1, 2, 3]) [1, 2, 3]
    ∧ (weakShuffle 10 (fun _ => 0) [1, 2, 3] = .ok (weakSwaps (fun _ => 0) 10 0 [1, 2, 3])
        ∧ List.Perm (weakSwaps (fun _ => 0) 10 0 [1, 2, 3]) [1, 2, 3]) := by
  have P := shuffle_strategies_permute Nat [1, 0] (fun _ => true) 5 (fun _ => 0) 10 [1, 2, 3]
  exact ⟨P.1, P.2.1 [1, 2, 3] rfl, P.2.2.1, P.2.2.2 (by decide)⟩

/-- Claim C4: for non-empty lists of distinct suits and ranks, `create_deck`
builds, in order, one card per (suit, rank) pair — suits in the outer loop,
ranks in the inner loop — each card's value being the 1-based position of its
rank in `ranks`; in particular `create_deck(["Hearts"], ["2","3","Ace"])` is
exactly {Hearts,2,1}, {Hearts,3,2}, {Hearts,Ace,3} in that order. -/
theorem create_deck_builds_in_order (suits ranks : List String)
    (hs : suits ≠ []) (hr : ranks ≠ []) (hsn : suits.Nodup) (hrn : ranks.Nodup) :
    create_deck suits ranks [] = .ok (deckCards suits ranks)
    ∧ (∀ c, c ∈ deckCards suits ranks → c.value = (ranks.indexOf c.rank : Int) + 1)
    ∧ create_deck ["Hearts"] ["2", "3", "Ace"] []
        = .ok [standardCard "Hearts" "2" 1, standardCard "Hearts" "3" 2,
            standardCard "Hearts" "Ace" 3] := by
  refine ⟨by simpa using create_deck_eq suits ranks [], ?_, rfl⟩
  intro c hc
  unfold deckCards at hc
  rw [List.mem_flatMap] at hc
  obtain ⟨s, hsmem, hc⟩ := hc
  rw [List.mem_map] at hc
  obtain ⟨⟨i, x⟩, hvr, rfl⟩ := hc
  obtain ⟨hilt, hx⟩ := List.mem_enum hvr
  simp only [standardCard]
  rw [hx, List.indexOf_getElem hrn i hilt]

theorem create_deck_builds_in_order_witness :
    create_deck ["Hearts"] ["2", "3", "Ace"] []
      = .ok [standardCard "Hearts" "2" 1, standardCard "Hearts" "3" 2,
          standardCard "Hearts" "Ace" 3] :=
  (create_deck_builds_in_order ["Hearts"] ["2", "3", "Ace"]
    (by decide) (by decide) (by decide) (by decide)).2.2

/-- Claim C5 counterexample: `create_deck([], ["2"])` on a fresh deck returns
normally with the deck unchanged (the loops run zero times); it does not fail
with InvalidArgument. -/
theorem create_deck_empty_suits_no_error : create_deck [] ["2"] [] = .ok [] := rfl

/-- Claim C5 amended: `create_deck` does not validate its arguments: with an
empty suit list or an empty rank list it succeeds, adds no cards and raises
nothing. -/
theorem create_deck_empty_args_ok (suits ranks : List String) (deck : List StandardCard) :
    create_deck [] ranks deck = .ok deck ∧ create_deck suits [] deck = .ok deck := by
  have hnil : (suits.flatMap fun _ => ([] : List StandardCard)) = [] := by simp
  constructor
  · simpa [deckCards] using create_deck_eq [] ranks deck
  · simpa [deckCards, hnil] using create_deck_eq suits [] deck

/-- Claim C6 counterexample: "Stars" is outside SUITS and the value -1 is
non-positive, yet `create_card` returns a card instead of failing with
InvalidArgument. -/
theorem create_card_invalid_input_succeeds :
    create_card "Stars" "2" (-1)
      = .ok { name := "Stars2-1", suit := "Stars", rank := "2", value := -1 }
    ∧ "Stars" ∉ SUITS ∧ (-1 : Int) ≤ 0 :=
  ⟨rfl, by decide, by decide⟩

/-- Claim C6 amended: `create_card` performs no validation at all: for every
suit, rank and value — recognized or not, positive or not — it returns a card
holding exactly those three attributes (plus `name = suit + rank +
str(value)`), and never fails. -/
theorem create_card_returns_attributes (suit rank : String) (value : Int) :
    create_card suit rank value
      = .ok (StandardCard.mk (suit ++ rank ++ toString value) suit rank value) := rfl

/-- Claim C7: every strategy's shuffle leaves the input list object unchanged
and returns a fresh object: for a valid reference into the heap, the input
cell is untouched after the call and the returned reference differs from the
input one (RandomShuffle and FisherYates return unconditionally; WeakShuffle
and RiffleShuffle are stated on the runs that return). -/
theorem shuffle_strategies_pure (α : Type) (h : Heap α) (cards : Nat)
    (hc : cards < h.length) (perm : List Nat) (rand : Nat → Nat) (coins : Nat → Bool)
    (fuel swaps : Nat) :
    (hread (randomShuffleH perm h cards).1 cards = hread h cards
      ∧ (randomShuffleH perm h cards).2 ≠ cards)
    ∧ (hread (fisherYatesShuffleH rand h cards).1 cards = hread h cards
      ∧ (fisherYatesShuffleH rand h cards).2 ≠ cards)
    ∧ (∀ h2 r, weakShuffleH swaps rand h cards = .ok (h2, r) →
        hread h2 cards = hread h cards ∧ r ≠ cards)
    ∧ (∀ h2 r, riffleShuffleH coins fuel h cards = some (h2, r) →
        hread h2 cards = hread h cards ∧ r ≠ cards) :=
  ⟨randomShuffleH_frame perm h cards hc, fisherYatesShuffleH_frame rand h cards hc,
    fun h2 r hok => weakShuffleH_frame swaps rand h cards hc h2 r hok,
    fun h2 r hok => riffleShuffleH_frame coins fuel h cards hc h2 r hok⟩

theorem shuffle_strategies_pure_witness :
    (hread (randomShuffleH [1, 0] [[1, 2]] 0).1 0 = hread [[1, 2]] 0
      ∧ (randomShuffleH [1, 0] [[1, 2]] 0).2 ≠ 0)
    ∧ (hread (fisherYatesShuffleH (fun _ => 0) [[1, 2]] 0).1 0 = hread [[1, 2]] 0
      ∧ (fisherYatesShuffleH (fun _ => 0) [[1, 2]] 0).2 ≠ 0)
    ∧ (hread [[1, 2], [1, 2]] 0 = hread [[1, 2]] 0 ∧ 1 ≠ 0)
    ∧ (hread [[1, 2], [], [], [1, 2]] 0 = hread [[1, 2]] 0 ∧ 3 ≠ 0) := by
  have P := shuffle_strategies_pure Nat [[1, 2]] 0 (by decide) [1, 0] (fun _ => 0)
    (fun _ => true) 5 3
  exact ⟨P.1, P.2.1, P.2.2.1 [[1, 2], [1, 2]] 1 rfl, P.2.2.2 [[1, 2], [], [], [1, 2]] 3 rfl⟩

/-- Claim C8: `FisherYatesShuffle.shuffle`, whose loop stops at index 1, is
extensionally equal to the reference Fisher-Yates of the spec, which iterates
down to index 0, for every stream of random index choices and every input:
the i = 0 step can only swap an element with itself. -/
theorem fisherYatesShuffle_eq_ref (α : Type) (rand : Nat → Nat) (l : List α) :
    fisherYatesShuffle rand l = fisherYatesRef rand l := by
  unfold fisherYatesShuffle fisherYatesRef
  cases l with
  | nil => rfl
  | cons x t =>
    simpa using fyAux_eq_fyRefAux rand ((x :: t).length - 1) (x :: t)

/-- Claim C9: `WeakShuffle.shuffle` is not total: for every swap count ≥ 1
(including the default 10), shuffling the empty sequence raises `ValueError`
from `random.randrange(0)` instead of returning a sequence. -/
theorem weakShuffle_empty_raises (α : Type) (swaps : Nat) (rand : Nat → Nat)
    (hs : 1 ≤ swaps) :
    weakShuffle swaps rand ([] : List α)
      = .error (.valueError "empty range for randrange()") := by
  cases swaps with
  | zero => exact absurd hs (by decide)
  | succ s => rfl

theorem weakShuffle_empty_raises_witness :
    weakShuffle 10 (fun _ => 1) ([] : List Nat)
      = .error (.valueError "empty range for randrange()") :=
  weakShuffle_empty_raises Nat 10 (fun _ => 1) (by decide)

/-- Claim C10: `create_deck` appends to the deck's existing contents rather
than replacing them — the resulting deck is the prior sequence followed by
the newly built cards — so calling it twice with `["Hearts"], ["2"]` yields
the Hearts-2 card twice. -/
theorem create_deck_appends (suits ranks : List String) (deck : List StandardCard) :
    create_deck suits ranks deck = .ok (deck ++ deckCards suits ranks)
    ∧ create_deck ["Hearts"] ["2"] [] = .ok [standardCard "Hearts" "2" 1]
    ∧ create_deck ["Hearts"] ["2"] [standardCard "Hearts" "2" 1]
        = .ok [standardCard "Hearts" "2" 1, standardCard "Hearts" "2" 1] :=
  ⟨create_deck_eq suits ranks deck, rfl, rfl⟩
